import Mathlib

/-!
Verification development for the QuantEdge multi-factor stock-analysis
dashboard.  The TypeScript sources (`App.tsx`, `services/geminiService.ts`,
`components/AnalysisDashboard.tsx` and the shared `types` module) are
shallowly embedded below: pure computations become Lean functions, the
mutable record of the orchestrator becomes an explicit state type with
transition functions, host primitives (the remote AI call, `JSON.parse`)
become explicit parameters describing their outcome, and JavaScript
numbers are modelled as rationals.  Strings manipulated character by
character are modelled as `List Char`.
-/

namespace QuantEdge

/-! ## Ticker parsing (App.tsx, handleSearch)

`input.split(/[, \s]+/).map(t => t.trim().toUpperCase()).filter(t => t.length > 0)`

The separator class of the regular expression is a comma or a whitespace
character; the ASCII part of the JavaScript `\s` class is modelled
(space, tab, line feed, carriage return, vertical tab, form feed). -/

/-- Whitespace characters: model of the ASCII part of the JavaScript
regular-expression class `\s`, also used by `String.prototype.trim`. -/
def isSpaceChar (c : Char) : Bool :=
  c = ' ' || c = '\t' || c = '\n' || c = '\r' || c = Char.ofNat 11 || c = Char.ofNat 12

/-- Characters matched by the splitting pattern of `handleSearch`:
a comma or a whitespace character. -/
def isSepChar (c : Char) : Bool :=
  c = ',' || isSpaceChar c

/-- Does the list start with a separator character? -/
def headIsSep (p : Char → Bool) : List Char → Bool
  | [] => false
  | c :: _ => p c

/-- Model of JavaScript `String.prototype.split` on the regular expression
`[sep]+`: the input is cut at every maximal run of separator characters,
keeping the (possibly empty) fragments between runs, including an empty
fragment before a leading run and after a trailing run. -/
def jsSplit (p : Char → Bool) : List Char → List (List Char)
  | [] => [[]]
  | c :: rest =>
    if p c then
      if headIsSep p rest then jsSplit p rest
      else [] :: jsSplit p rest
    else
      match jsSplit p rest with
      | t :: ts => (c :: t) :: ts
      | [] => [[c]]

theorem jsSplit_cons (p : Char → Bool) (c : Char) (rest : List Char) :
    jsSplit p (c :: rest) =
      if p c then
        if headIsSep p rest then jsSplit p rest else [] :: jsSplit p rest
      else
        match jsSplit p rest with
        | t :: ts => (c :: t) :: ts
        | [] => [[c]] := by
  simp only [jsSplit]

/-- Model of `String.prototype.trim`: drop whitespace from both ends. -/
def trimChars (l : List Char) : List Char :=
  (((l.dropWhile isSpaceChar).reverse.dropWhile isSpaceChar)).reverse

/-- Model of `String.prototype.toUpperCase` on a fragment (ASCII characters,
which is what ticker symbols are made of). -/
def toUpperTok (t : List Char) : List Char :=
  t.map Char.toUpper

/-- The ticker list derived by `handleSearch` from the free-text input:
split on `[, \s]+`, trim each fragment, uppercase it, and keep only the
non-empty fragments. -/
def parseTickers (input : List Char) : List (List Char) :=
  ((jsSplit isSepChar input).map (fun t => toUpperTok (trimChars t))).filter
    (fun t => decide (0 < t.length))

/-- Modelled from the spec: the maximal non-separator runs of the input,
in order — the tokens obtained by splitting on commas/whitespace and
discarding empty tokens. -/
def nonSepRuns (p : Char → Bool) : List Char → List (List Char)
  | [] => []
  | c :: rest =>
    if p c then nonSepRuns p rest
    else
      if headIsSep p rest then [c] :: nonSepRuns p rest
      else
        match nonSepRuns p rest with
        | t :: ts => (c :: t) :: ts
        | [] => [[c]]

theorem nonSepRuns_cons (p : Char → Bool) (c : Char) (rest : List Char) :
    nonSepRuns p (c :: rest) =
      if p c then nonSepRuns p rest
      else
        if headIsSep p rest then [c] :: nonSepRuns p rest
        else
          match nonSepRuns p rest with
          | t :: ts => (c :: t) :: ts
          | [] => [[c]] := by
  simp only [nonSepRuns]

/-- Modelled from the spec: the ticker tokens described by the spec —
split the input on commas/whitespace, discard empty tokens, uppercase
each token, order preserved. -/
def specTokens (input : List Char) : List (List Char) :=
  (nonSepRuns isSepChar input).map toUpperTok

theorem jsSplit_ne_nil (p : Char → Bool) : ∀ l : List Char, jsSplit p l ≠ []
  | [] => by simp [jsSplit]
  | c :: rest => by
    simp only [jsSplit]
    split
    · split
      · exact jsSplit_ne_nil p rest
      · simp
    · split <;> simp

theorem jsSplit_head_nil_of_headIsSep (p : Char → Bool) :
    ∀ l : List Char, headIsSep p l = true → ∃ ts, jsSplit p l = [] :: ts
  | [], h => by simp [headIsSep] at h
  | c :: rest, h => by
    have hc : p c = true := h
    simp only [jsSplit, hc, if_pos]
    by_cases hr : headIsSep p rest = true
    · simpa [hr] using jsSplit_head_nil_of_headIsSep p rest hr
    · simp only [Bool.not_eq_true] at hr
      exact ⟨jsSplit p rest, by simp [hr]⟩

theorem jsSplit_cons_of_not_sep (p : Char → Bool) (d : Char) (r : List Char)
    (hd : p d = false) : ∃ t ts, jsSplit p (d :: r) = (d :: t) :: ts := by
  simp only [jsSplit, hd]
  rcases hr : jsSplit p r with _ | ⟨t, ts⟩
  · exact absurd hr (jsSplit_ne_nil p r)
  · exact ⟨t, ts, by simp⟩

theorem mem_jsSplit_not_sep (p : Char → Bool) :
    ∀ l : List Char, ∀ t ∈ jsSplit p l, ∀ c ∈ t, p c = false
  | [], t, ht, c, hc => by
    simp [jsSplit] at ht
    subst ht
    simp at hc
  | a :: rest, t, ht, c, hc => by
    by_cases ha : p a = true
    · simp only [jsSplit, ha, if_pos] at ht
      by_cases hr : headIsSep p rest = true
      · rw [if_pos hr] at ht
        exact mem_jsSplit_not_sep p rest t ht c hc
      · rw [if_neg hr] at ht
        rcases List.mem_cons.mp ht with h | h
        · subst h; simp at hc
        · exact mem_jsSplit_not_sep p rest t h c hc
    · simp only [Bool.not_eq_true] at ha
      simp only [jsSplit, ha] at ht
      rcases hsp : jsSplit p rest with _ | ⟨t₀, ts⟩
      · exact absurd hsp (jsSplit_ne_nil p rest)
      · rw [hsp] at ht
        rcases List.mem_cons.mp ht with h | h
        · subst h
          rcases List.mem_cons.mp hc with h' | h'
          · subst h'; exact ha
          · exact mem_jsSplit_not_sep p rest t₀ (hsp ▸ List.mem_cons_self t₀ ts) c h'
        · exact mem_jsSplit_not_sep p rest t (hsp ▸ List.mem_cons_of_mem t₀ h) c hc

theorem dropWhile_eq_self_of_not_head (q : Char → Bool) (l : List Char)
    (h : ∀ c ∈ l, q c = false) : l.dropWhile q = l := by
  cases l with
  | nil => rfl
  | cons c rest => simp [List.dropWhile_cons, h c (List.mem_cons_self c rest)]

theorem trimChars_eq_self (t : List Char) (h : ∀ c ∈ t, isSpaceChar c = false) :
    trimChars t = t := by
  unfold trimChars
  rw [dropWhile_eq_self_of_not_head isSpaceChar t h,
      dropWhile_eq_self_of_not_head isSpaceChar t.reverse
        (fun c hc => h c (List.mem_reverse.mp hc)),
      List.reverse_reverse]

theorem filter_map_length_preserving (f : List Char → List Char)
    (hf : ∀ t, (f t).length = t.length) :
    ∀ xs : List (List Char),
      (xs.map f).filter (fun t => decide (0 < t.length)) =
        (xs.filter (fun t => decide (0 < t.length))).map f
  | [] => rfl
  | x :: xs => by
    simp only [List.map_cons, List.filter_cons, hf x]
    by_cases hx : 0 < x.length
    · simp [hx, filter_map_length_preserving f hf xs]
    · simp [hx, filter_map_length_preserving f hf xs]

theorem filter_jsSplit_eq_nonSepRuns (p : Char → Bool) :
    ∀ l : List Char,
      (jsSplit p l).filter (fun t => decide (0 < t.length)) = nonSepRuns p l
  | [] => by simp [jsSplit, nonSepRuns]
  | c :: rest => by
    by_cases hc : p c = true
    · have hruns : nonSepRuns p (c :: rest) = nonSepRuns p rest := by
        simp [nonSepRuns, hc]
      by_cases hr : headIsSep p rest = true
      · have hsplit : jsSplit p (c :: rest) = jsSplit p rest := by
          simp [jsSplit, hc, hr]
        rw [hsplit, hruns]
        exact filter_jsSplit_eq_nonSepRuns p rest
      · have hsplit : jsSplit p (c :: rest) = [] :: jsSplit p rest := by
          simp [jsSplit, hc, hr]
        rw [hsplit, hruns, List.filter_cons_of_neg (by simp)]
        exact filter_jsSplit_eq_nonSepRuns p rest
    · simp only [Bool.not_eq_true] at hc
      rcases hrest : rest with _ | ⟨d, r⟩
      · simp [jsSplit, nonSepRuns, headIsSep, hc, List.filter_cons]
      · by_cases hd : p d = true
        · have hhead : headIsSep p (d :: r) = true := hd
          obtain ⟨ts, hts⟩ := jsSplit_head_nil_of_headIsSep p (d :: r) hhead
          have hsplit : jsSplit p (c :: d :: r) = [c] :: ts := by
            rw [jsSplit_cons, if_neg (by simp [hc]), hts]
          have hruns : nonSepRuns p (c :: d :: r) = [c] :: nonSepRuns p (d :: r) := by
            rw [nonSepRuns_cons, if_neg (by simp [hc]), if_pos hhead]
          have ih := filter_jsSplit_eq_nonSepRuns p (d :: r)
          rw [hts, List.filter_cons_of_neg (by simp)] at ih
          rw [hsplit, hruns, List.filter_cons_of_pos (by simp), ih]
        · simp only [Bool.not_eq_true] at hd
          have hhead : headIsSep p (d :: r) = false := hd
          obtain ⟨t, ts, hts⟩ := jsSplit_cons_of_not_sep p d r hd
          have hsplit : jsSplit p (c :: d :: r) = (c :: d :: t) :: ts := by
            rw [jsSplit_cons, if_neg (by simp [hc]), hts]
          have ih := filter_jsSplit_eq_nonSepRuns p (d :: r)
          rw [hts, List.filter_cons_of_pos (by simp)] at ih
          have hruns : nonSepRuns p (c :: d :: r) =
              (c :: d :: t) :: (ts.filter (fun u => decide (0 < u.length))) := by
            rw [nonSepRuns_cons, if_neg (by simp [hc]), if_neg (by simp [hhead]), ← ih]
          rw [hsplit, hruns, List.filter_cons_of_pos (by simp)]

theorem toUpperTok_length (t : List Char) : (toUpperTok t).length = t.length := by
  simp [toUpperTok]

/-- C4. For every free-text input, the ticker list derived on submit
(`parseTickers`, the embedding of the split/trim/uppercase/filter pipeline
of `handleSearch`) equals the tokens obtained by splitting on
commas/whitespace, uppercasing, and discarding empty tokens, in the
original left-to-right order (`specTokens`). -/
theorem parseTickers_eq_specTokens (input : List Char) :
    parseTickers input = specTokens input := by
  unfold parseTickers specTokens
  have htrim : ∀ t ∈ jsSplit isSepChar input,
      toUpperTok (trimChars t) = toUpperTok t := by
    intro t ht
    have hsep := mem_jsSplit_not_sep isSepChar input t ht
    have hsp : ∀ c ∈ t, isSpaceChar c = false := by
      intro c hc
      have h := hsep c hc
      by_contra hco
      simp only [Bool.not_eq_false] at hco
      simp [isSepChar, hco] at h
    rw [trimChars_eq_self t hsp]
  rw [List.map_congr_left htrim,
      filter_map_length_preserving toUpperTok toUpperTok_length,
      filter_jsSplit_eq_nonSepRuns]

/-! ## Data model (types module)

JavaScript numbers are modelled as rationals. -/

/-- Grade of the value factor (`valuationGrade`). -/
inductive ValuationGrade where
  | low
  | fair
  | high
deriving DecidableEq

/-- Grade of the momentum factor (`revisionsGrade`). -/
inductive RevisionsGrade where
  | strong
  | neutral
  | weak
deriving DecidableEq

/-- Final recommendation enumeration. -/
inductive Recommendation where
  | strongBuy
  | buy
  | hold
  | sell
  | strongSell
deriving DecidableEq

/-- The value block of an analysis result. -/
structure ValueBlock where
  forwardPE : ℚ
  forwardPE_2YR : ℚ
  sectorMedianPE : ℚ
  valuationGrade : ValuationGrade
  assessment : String
deriving DecidableEq

/-- The quality block of an analysis result.  `dcfIntrinsicValue` and
`dcfMarginOfSafety` are 0 when the DCF was not computed (negative or
unpredictable free cash flow). -/
structure QualityBlock where
  roe : ℚ
  roic : ℚ
  debtToEquity : ℚ
  dcfIntrinsicValue : ℚ
  dcfMarginOfSafety : ℚ
  qualityScore : ℚ
  assessment : String
deriving DecidableEq

/-- The momentum block of an analysis result. -/
structure MomentumBlock where
  revisionsUp90D : ℚ
  revisionsDown90D : ℚ
  revisionsGrade : RevisionsGrade
  assessment : String
deriving DecidableEq

/-- One grounding citation record attached to a result. -/
structure SourceRef where
  title : String
  uri : String
deriving DecidableEq

/-- One analysis record (`StockAnalysisData` of the types module). -/
structure StockAnalysisData where
  ticker : String
  companyName : String
  currentPrice : ℚ
  value : ValueBlock
  quality : QualityBlock
  momentum : MomentumBlock
  deepAnalysis : String
  finalRecommendation : Recommendation
  riskFactors : List String
  sources : List SourceRef
deriving DecidableEq

/-! ## Service layer (services/geminiService.ts, analyzeStocks)

The remote call and the host JSON parser are external: the service
response and the parse outcome of a payload are explicit parameters of
the embedding. -/

/-- Errors thrown inside the `analyzeStocks` + `handleSearch` pipeline.
`jsonSyntax` carries the message of the SyntaxError thrown by
`JSON.parse`; `undefinedMap` carries the message of the TypeError thrown
by `stocks.map` when the parsed payload has no `results` array (both
texts are produced by the JavaScript engine, so they stay parameters of
the model); `transport` is a rejection of the remote call itself. -/
inductive JsError where
  | emptyResponse
  | jsonSyntax (msg : String)
  | undefinedMap (msg : String)
  | noResults
  | transport (msg : String)
deriving DecidableEq

/-- The `message` property of the corresponding JavaScript error object. -/
def JsError.message : JsError → String
  | .emptyResponse => "Empty response from AI"
  | .jsonSyntax m => m
  | .undefinedMap m => m
  | .noResults => "No valid financial data found for the provided tickers."
  | .transport m => m

/-- Outcome of `JSON.parse` on a payload followed by reading its
`results` property: the parse throws with a message, or yields a value
whose `results` array is absent, or yields the array of records (the
response schema is the sole mechanism enforcing the record shape, so a
present array is modelled at the record type). -/
inductive ParseOutcome where
  | parseError (msg : String)
  | parsed (results : Option (List StockAnalysisData))

/-- One grounding chunk of the response metadata:
`chunk.web?.title` and `chunk.web?.uri` (absent `web` gives two absent
fields). -/
structure Chunk where
  title : Option String
  uri : Option String
deriving DecidableEq

/-- Outcome of `ai.models.generateContent`: a rejection, or a resolution
carrying the optional text payload and the optional grounding-chunk
list of the response metadata. -/
inductive ServiceResponse where
  | rejected (e : JsError)
  | resolved (text : Option String) (chunks : Option (List Chunk))
deriving DecidableEq

/-- JavaScript `x || d` on an optional string: absent or empty gives
the default. -/
def orDefault (o : Option String) (d : String) : String :=
  match o with
  | none => d
  | some s => if s = "" then d else s

/-- The chunk conversion of `analyzeStocks`: the title defaults to the
placeholder `Market Source` and the link to the marker `#`. -/
def convChunk (c : Chunk) : SourceRef :=
  { title := orDefault c.title "Market Source"
    uri := orDefault c.uri "#" }

/-- The `globalSources` list of `analyzeStocks`: map each grounding
chunk to a citation record and keep those with a usable link (the
filter drops every record whose link is the `#` marker); an absent
chunk list gives the empty list. -/
def extractChunks (chunks : Option (List Chunk)) : List SourceRef :=
  match chunks with
  | none => []
  | some cs => (cs.map convChunk).filter (fun s => s.uri != "#")

/-- The final map of `analyzeStocks`: every parsed record is returned
with its `sources` field replaced by the first five entries of the
shared citation list. -/
def attachSources (globalSources : List SourceRef)
    (stocks : List StockAnalysisData) : List StockAnalysisData :=
  stocks.map (fun s => { s with sources := globalSources.take 5 })

/-- The embedding of `analyzeStocks`, parametrised by the outcome of the
remote call and by the host JSON parser (`parse` gives the outcome of
`JSON.parse` on a given payload text).  A rejection of the remote call
is re-thrown by the catch block; an absent or empty (falsy) text payload
throws the empty-response error; a parse failure throws the SyntaxError;
an absent `results` array makes `stocks` undefined, so `stocks.map`
throws a TypeError; otherwise every parsed record is returned with the
shared citation list attached. -/
def analyzeStocks (parse : String → ParseOutcome) (umsg : String)
    (r : ServiceResponse) : Except JsError (List StockAnalysisData) :=
  match r with
  | .rejected e => .error e
  | .resolved text chunks =>
    match text with
    | none => .error .emptyResponse
    | some t =>
      if t = "" then .error .emptyResponse
      else
        match parse t with
        | .parseError m => .error (.jsonSyntax m)
        | .parsed none => .error (.undefinedMap umsg)
        | .parsed (some stocks) =>
          .ok (attachSources (extractChunks chunks) stocks)

/-! ## Application state orchestrator (App.tsx) -/

/-- The `step` field of the application state. -/
inductive AppStep where
  | idle
  | processing
deriving DecidableEq

/-- The `AnalysisState` record owned by the `App` component. -/
structure AnalysisState where
  loading : Bool
  progress : ℚ
  error : Option String
  data : Option (List StockAnalysisData)
  step : AppStep
deriving DecidableEq

/-- The initial `useState` value of `App`. -/
def initialState : AnalysisState :=
  { loading := false, progress := 0, error := none, data := none, step := .idle }

/-- The state set by `handleSearch` when a request starts: loading with
zero progress, both `error` and `data` cleared, step processing. -/
def requestStartState : AnalysisState :=
  { loading := true, progress := 0, error := none, data := none, step := .processing }

/-- `startProgressSimulation` first sets `progress` to 5. -/
def startProgress (s : AnalysisState) : AnalysisState :=
  { s with progress := 5 }

/-- One firing of the interval callback of `startProgressSimulation`,
with `elapsed = Date.now() - startTime` in milliseconds and
`duration = 10000`: hold at 95, otherwise advance to
`max(prev.progress, min(95, (elapsed / duration) * 90))`. -/
def tickState (elapsed : ℚ) (s : AnalysisState) : AnalysisState :=
  if s.progress ≥ 95 then s
  else { s with progress := max s.progress (min 95 (elapsed / 10000 * 90)) }

/-- `finishProgress` clears the interval and snaps `progress` to 100. -/
def finishProgress (s : AnalysisState) : AnalysisState :=
  { s with progress := 100 }

/-- The fallback text of the catch block of `handleSearch`. -/
def genericErrorMessage : String :=
  "Financial analysis engine encountered an error. Please verify the tickers."

/-- `err.message || "Financial analysis engine encountered an error. ..."`:
an empty (falsy) message falls back to the generic text. -/
def surfacedMessage (e : JsError) : String :=
  if e.message = "" then genericErrorMessage else e.message

/-- The state set by the catch block of `handleSearch`. -/
def failureState (e : JsError) : AnalysisState :=
  { loading := false, progress := 0, error := some (surfacedMessage e),
    data := none, step := .idle }

/-- The state set (after the 400 ms delay) when the request resolved
with a non-empty result list. -/
def successState (results : List StockAnalysisData) : AnalysisState :=
  { loading := false, progress := 100, error := none, data := some results,
    step := .idle }

/-- The dismiss control of the error panel: clear the `error` field and
keep every other field. -/
def dismissError (s : AnalysisState) : AnalysisState :=
  { s with error := none }

/-- The completion of one request in `handleSearch`: an error of the
service layer lands in the catch block; an empty result list is thrown
(`new Error("No valid financial data found for the provided tickers.")`)
and caught by the same block; a non-empty list yields the success
state. -/
def runRequest (parse : String → ParseOutcome) (umsg : String)
    (r : ServiceResponse) : AnalysisState :=
  match analyzeStocks parse umsg r with
  | .error e => failureState e
  | .ok results =>
    if results.length = 0 then failureState .noResults
    else successState results

/-- The guard phase of `handleSearch`: return without any effect when the
trimmed input is empty (falsy) or when the derived ticker list is empty;
otherwise issue the request with the derived tickers. -/
def handleSearchGuard (input : List Char) : Option (List (List Char)) :=
  if trimChars input = [] then none
  else
    let tickers := parseTickers input
    if tickers.length = 0 then none else some tickers

/-- The submit entry point of `handleSearch` up to the request issue:
either the state is left untouched and no request goes out, or the
request-start state is installed (progress then raised to 5 by
`startProgressSimulation`) and the derived tickers are sent. -/
def handleSearchSubmit (input : List Char) (s : AnalysisState) :
    AnalysisState × Option (List (List Char)) :=
  match handleSearchGuard input with
  | none => (s, none)
  | some tickers => (startProgress requestStartState, some tickers)

/-- One `Processing` episode of the progress estimator: the state after
the start of the simulation and a sequence of interval firings with the
given elapsed times. -/
def episodeState (elapseds : List ℚ) : AnalysisState :=
  elapseds.foldl (fun s e => tickState e s) (startProgress requestStartState)

/-- The states the `App` component can reach: the initial state and
everything produced by the submit, progress, resolution and dismiss
transitions. -/
inductive Reachable : AnalysisState → Prop
  | init : Reachable initialState
  | submit {s : AnalysisState} : Reachable s → Reachable requestStartState
  | startProg {s : AnalysisState} : Reachable s → Reachable (startProgress s)
  | tick {s : AnalysisState} (e : ℚ) : Reachable s → Reachable (tickState e s)
  | finish {s : AnalysisState} : Reachable s → Reachable (finishProgress s)
  | resolve {s : AnalysisState} (parse : String → ParseOutcome)
      (umsg : String) (r : ServiceResponse) :
      Reachable s → Reachable (runRequest parse umsg r)
  | dismiss {s : AnalysisState} : Reachable s → Reachable (dismissError s)

/-! ## Rendering layer (components/AnalysisDashboard.tsx) -/

/-- What the quality row of the dashboard shows for the DCF pair:
either the placeholder line (`DCF N/A ...`) or a dollar value with a
margin percentage. -/
inductive DCFDisplay where
  | na
  | shown (dollar : ℚ) (marginPct : ℚ)
deriving DecidableEq

/-- `renderDCFInfo`: `if (data.quality.dcfIntrinsicValue &&
data.quality.dcfIntrinsicValue > 0)` show the dollar value and
`margin = dcfMarginOfSafety * 100` as a percentage, else the N/A line.
JavaScript truthiness of a (non-NaN) number is `≠ 0`. -/
def renderDCFInfo (q : QualityBlock) : DCFDisplay :=
  if q.dcfIntrinsicValue ≠ 0 ∧ q.dcfIntrinsicValue > 0 then
    .shown q.dcfIntrinsicValue (q.dcfMarginOfSafety * 100)
  else .na

/-- The `DCF Intrinsic` card of the Fundamental DNA grid:
`value && value > 0 ? dollar string : "N/A"`; `none` stands for the
`"N/A"` text. -/
def dcfCardValue (q : QualityBlock) : Option ℚ :=
  if q.dcfIntrinsicValue ≠ 0 ∧ q.dcfIntrinsicValue > 0 then
    some q.dcfIntrinsicValue
  else none

/-! ## Concrete inputs used by counterexamples and witnesses -/

/-- A parse oracle whose payload parses to an empty results array. -/
def parseEmptyResults : String → ParseOutcome :=
  fun _ => .parsed (some [])

/-- A parse oracle modelling a JSON.parse failure. -/
def parseFails : String → ParseOutcome :=
  fun _ => .parseError "Unexpected token p in JSON at position 0"

/-- A resolved response with a non-empty text payload and no grounding
metadata. -/
def respPayload : ServiceResponse := .resolved (some "payload") none

/-- A resolved response with no text payload. -/
def respNoText : ServiceResponse := .resolved none none

/-- A stand-in for the engine text of the TypeError thrown when the
parsed payload has no results array. -/
def typeErrMsg : String := "TypeError: Cannot read properties of undefined"

/-- A quality block whose DCF pair carries the 0 sentinel. -/
def sampleQuality : QualityBlock :=
  { roe := 10, roic := 12, debtToEquity := 1/2, dcfIntrinsicValue := 0,
    dcfMarginOfSafety := 0, qualityScore := 80, assessment := "solid" }

/-- A concrete analysis record. -/
def sampleStock : StockAnalysisData :=
  { ticker := "AAPL", companyName := "Apple", currentPrice := 100,
    value := { forwardPE := 20, forwardPE_2YR := 18, sectorMedianPE := 25,
               valuationGrade := .fair, assessment := "ok" },
    quality := sampleQuality,
    momentum := { revisionsUp90D := 5, revisionsDown90D := 2,
                  revisionsGrade := .strong, assessment := "up" },
    deepAnalysis := "narrative", finalRecommendation := .buy,
    riskFactors := ["competition"], sources := [] }

/-- Ten synthetic grounding chunks, all with a usable link. -/
def tenChunks : List Chunk :=
  List.replicate 10 { title := some "T", uri := some "u" }

/-- The record produced by attaching the citation list of `tenChunks`
to `sampleStock`. -/
def attachedSample : StockAnalysisData :=
  { sampleStock with sources := (extractChunks (some tenChunks)).take 5 }

/-! ## Claim theorems -/

/-- C1 counterexample: a call of `analyzeStocks` whose payload parses to
an empty results array completes without an error and returns the empty
list, so the claim that every error-free call returns a non-empty list
fails at this concrete input. -/
theorem analyzeStocks_ok_empty_counterexample :
    analyzeStocks parseEmptyResults typeErrMsg respPayload = Except.ok [] := by
  rfl

/-- C1 (amended): an error-free call of `analyzeStocks` returns the
complete parsed batch — one output per parsed record, each with the
shared citation list attached — but that batch may be empty; the
orchestrator (`handleSearch`), not `analyzeStocks`, converts the empty
batch into a failure, so the pipeline never surfaces an incomplete or empty
list as success. -/
theorem analyzeStocks_complete_or_error (parse : String → ParseOutcome)
    (umsg : String) (r : ServiceResponse) (stocks : List StockAnalysisData)
    (h : analyzeStocks parse umsg r = Except.ok stocks) :
    ∃ t chunks rs, r = ServiceResponse.resolved (some t) chunks ∧ t ≠ "" ∧
      parse t = ParseOutcome.parsed (some rs) ∧
      stocks = attachSources (extractChunks chunks) rs ∧
      stocks.length = rs.length ∧
      (stocks = [] → runRequest parse umsg r = failureState JsError.noResults) := by
  have horig := h
  rcases r with e | ⟨text, chunks⟩
  · exact absurd h (by simp [analyzeStocks])
  rcases text with _ | t
  · exact absurd h (by simp [analyzeStocks])
  by_cases ht : t = ""
  · exact absurd h (by simp [analyzeStocks, ht])
  rcases hp : parse t with m | rs
  · rw [analyzeStocks, if_neg ht, hp] at h
    exact absurd h (by simp)
  rcases rs with _ | rs
  · rw [analyzeStocks, if_neg ht, hp] at h
    exact absurd h (by simp)
  rw [analyzeStocks, if_neg ht, hp] at h
  have hstocks : stocks = attachSources (extractChunks chunks) rs := by
    injection h with h'
    exact h'.symm
  refine ⟨t, chunks, rs, rfl, ht, hp, hstocks, ?_, ?_⟩
  · rw [hstocks]
    simp [attachSources]
  · intro hnil
    unfold runRequest
    rw [horig, hnil]
    rfl

/-- Witness for the amended C1 theorem at a concrete input. -/
theorem analyzeStocks_complete_or_error_witness :
    ∃ t chunks rs,
      respPayload = ServiceResponse.resolved (some t) chunks ∧ t ≠ "" ∧
      parseEmptyResults t = ParseOutcome.parsed (some rs) ∧
      ([] : List StockAnalysisData) = attachSources (extractChunks chunks) rs ∧
      ([] : List StockAnalysisData).length = rs.length ∧
      (([] : List StockAnalysisData) = [] →
        runRequest parseEmptyResults typeErrMsg respPayload =
          failureState JsError.noResults) :=
  analyzeStocks_complete_or_error parseEmptyResults typeErrMsg respPayload [] rfl

/-- C2 counterexample: on an empty results array the orchestrator does
fail with `data` unset, but the message it carries is the text of the
code, not the text the claim states. -/
theorem emptyResults_message_counterexample :
    (runRequest parseEmptyResults typeErrMsg respPayload).data = none ∧
    (runRequest parseEmptyResults typeErrMsg respPayload).step = AppStep.idle ∧
    (runRequest parseEmptyResults typeErrMsg respPayload).error ≠
      some "No valid data found for the provided tickers" ∧
    (runRequest parseEmptyResults typeErrMsg respPayload).error =
      some "No valid financial data found for the provided tickers." := by
  refine ⟨rfl, rfl, ?_, rfl⟩
  decide

/-- C2 (amended): when the request resolves with a results array of
length zero, the orchestrator transitions to the failed state — not
success — carrying the error message
`No valid financial data found for the provided tickers.` with `data`
left unset. -/
theorem emptyResults_failed_state (parse : String → ParseOutcome)
    (umsg : String) (r : ServiceResponse)
    (h : analyzeStocks parse umsg r = Except.ok []) :
    runRequest parse umsg r = failureState JsError.noResults ∧
    (runRequest parse umsg r).error =
      some "No valid financial data found for the provided tickers." ∧
    (runRequest parse umsg r).data = none ∧
    (runRequest parse umsg r).loading = false ∧
    (runRequest parse umsg r).step = AppStep.idle := by
  have hrun : runRequest parse umsg r = failureState JsError.noResults := by
    unfold runRequest
    rw [h]
    rfl
  rw [hrun]
  exact ⟨rfl, rfl, rfl, rfl, rfl⟩

/-- Witness for the amended C2 theorem at a concrete input. -/
theorem emptyResults_failed_state_witness :
    runRequest parseEmptyResults typeErrMsg respPayload =
      failureState JsError.noResults ∧
    (runRequest parseEmptyResults typeErrMsg respPayload).error =
      some "No valid financial data found for the provided tickers." ∧
    (runRequest parseEmptyResults typeErrMsg respPayload).data = none ∧
    (runRequest parseEmptyResults typeErrMsg respPayload).loading = false ∧
    (runRequest parseEmptyResults typeErrMsg respPayload).step = AppStep.idle :=
  emptyResults_failed_state parseEmptyResults typeErrMsg respPayload rfl

/-- C3 counterexample: an empty-payload failure is surfaced with the
specific text of the code, which is neither the generic engine-error
message nor the text surfaced for a parse failure, so the two failure
kinds are not surfaced with one shared generic message. -/
theorem error_messages_differ_counterexample :
    (runRequest parseEmptyResults typeErrMsg respNoText).error =
      some "Empty response from AI" ∧
    (runRequest parseFails typeErrMsg respPayload).error =
      some "Unexpected token p in JSON at position 0" ∧
    "Empty response from AI" ≠ genericErrorMessage ∧
    "Empty response from AI" ≠ "Unexpected token p in JSON at position 0" := by
  refine ⟨rfl, rfl, ?_, ?_⟩ <;> decide

/-- C3 (amended): both failure kinds land in the same `error` field of
the application state, but with distinct texts: an empty payload is
surfaced as `Empty response from AI`, while an unparseable payload is
surfaced with the own message of the parse error, the generic engine-error
message being used only when that message is empty. -/
theorem error_surfacing :
    (∀ (parse : String → ParseOutcome) (umsg : String)
        (chunks : Option (List Chunk)),
      (runRequest parse umsg (ServiceResponse.resolved none chunks)).error =
        some "Empty response from AI") ∧
    (∀ (m umsg t : String) (chunks : Option (List Chunk)), m ≠ "" → t ≠ "" →
      (runRequest (fun _ => ParseOutcome.parseError m) umsg
          (ServiceResponse.resolved (some t) chunks)).error = some m) ∧
    (∀ (umsg t : String) (chunks : Option (List Chunk)), t ≠ "" →
      (runRequest (fun _ => ParseOutcome.parseError "") umsg
          (ServiceResponse.resolved (some t) chunks)).error =
        some genericErrorMessage) := by
  refine ⟨fun parse umsg chunks => rfl, ?_, ?_⟩
  · intro m umsg t chunks hm ht
    have hA : analyzeStocks (fun _ => ParseOutcome.parseError m) umsg
        (ServiceResponse.resolved (some t) chunks) =
        Except.error (JsError.jsonSyntax m) := by
      simp [analyzeStocks, ht]
    unfold runRequest
    rw [hA]
    show some (surfacedMessage (JsError.jsonSyntax m)) = some m
    unfold surfacedMessage
    simp only [JsError.message]
    rw [if_neg hm]
  · intro umsg t chunks ht
    have hA : analyzeStocks (fun _ => ParseOutcome.parseError "") umsg
        (ServiceResponse.resolved (some t) chunks) =
        Except.error (JsError.jsonSyntax "") := by
      simp [analyzeStocks, ht]
    unfold runRequest
    rw [hA]
    rfl

/-- Witness for the amended C3 theorem at concrete inputs. -/
theorem error_surfacing_witness :
    (runRequest parseEmptyResults typeErrMsg
        (ServiceResponse.resolved none none)).error =
      some "Empty response from AI" ∧
    (runRequest (fun _ => ParseOutcome.parseError "boom") typeErrMsg
        (ServiceResponse.resolved (some "payload") none)).error = some "boom" ∧
    (runRequest (fun _ => ParseOutcome.parseError "") typeErrMsg
        (ServiceResponse.resolved (some "payload") none)).error =
      some genericErrorMessage :=
  ⟨error_surfacing.1 parseEmptyResults typeErrMsg none,
   error_surfacing.2.1 "boom" typeErrMsg "payload" none (by decide) (by decide),
   error_surfacing.2.2 typeErrMsg "payload" none (by decide)⟩

theorem tick_progress_le_95 (s : AnalysisState) (e : ℚ) (h : s.progress ≤ 95) :
    (tickState e s).progress ≤ 95 := by
  unfold tickState
  split
  · exact h
  · exact max_le h (min_le_left _ _)

theorem foldl_tick_le_95 :
    ∀ (es : List ℚ) (s : AnalysisState), s.progress ≤ 95 →
      (es.foldl (fun s e => tickState e s) s).progress ≤ 95
  | [], _, h => h
  | e :: es, s, h =>
    foldl_tick_le_95 es (tickState e s) (tick_progress_le_95 s e h)

/-- C5. Throughout one processing episode every progress tick is
monotonically non-decreasing, the progress after any sequence of ticks
never exceeds 95, and only the resolution (`finishProgress`) sets the
progress, to exactly 100. -/
theorem progress_monotone_capped :
    (∀ (s : AnalysisState) (e : ℚ), s.progress ≤ (tickState e s).progress) ∧
    (∀ elapseds : List ℚ, (episodeState elapseds).progress ≤ 95) ∧
    (∀ s : AnalysisState, (finishProgress s).progress = 100) := by
  refine ⟨?_, ?_, fun s => rfl⟩
  · intro s e
    unfold tickState
    split
    · exact le_refl _
    · exact le_max_left _ _
  · intro es
    apply foldl_tick_le_95
    show (5 : ℚ) ≤ 95
    norm_num

/-- C6. Both the `error` and the `data` field are cleared at the start
of every request, and after every completed request cycle exactly one of
them is populated. -/
theorem error_data_exclusive :
    requestStartState.error = none ∧ requestStartState.data = none ∧
    (∀ (parse : String → ParseOutcome) (umsg : String) (r : ServiceResponse),
      ((runRequest parse umsg r).error = none ∧
        (runRequest parse umsg r).data ≠ none) ∨
      ((runRequest parse umsg r).error ≠ none ∧
        (runRequest parse umsg r).data = none)) := by
  refine ⟨rfl, rfl, ?_⟩
  intro parse umsg r
  rcases hA : analyzeStocks parse umsg r with e | results
  · have hrun : runRequest parse umsg r = failureState e := by
      unfold runRequest
      rw [hA]
    rw [hrun]
    right
    exact ⟨by simp [failureState], rfl⟩
  · by_cases h0 : results.length = 0
    · have hrun : runRequest parse umsg r = failureState JsError.noResults := by
        unfold runRequest
        rw [hA]
        exact if_pos h0
      rw [hrun]
      right
      exact ⟨by simp [failureState], rfl⟩
    · have hrun : runRequest parse umsg r = successState results := by
        unfold runRequest
        rw [hA]
        exact if_neg h0
      rw [hrun]
      left
      exact ⟨rfl, by simp [successState]⟩

/-- C7. The citation list attached by `analyzeStocks` is the same for
every result of the batch, holds at most 5 entries, is a sublist (same
order) of the converted grounding chunks, contains no entry without a
usable link, and chunk conversion defaults an absent title to the
placeholder and an absent link to the discarded marker. -/
theorem citations_capped_ordered_shared :
    (∀ (chunks : Option (List Chunk)) (stocks : List StockAnalysisData),
      ∀ s ∈ attachSources (extractChunks chunks) stocks,
        s.sources = (extractChunks chunks).take 5 ∧
        s.sources.length ≤ 5 ∧
        s.sources.Sublist ((chunks.getD []).map convChunk) ∧
        (∀ src ∈ s.sources, src.uri ≠ "#")) ∧
    (∀ c : Chunk, c.title = none → (convChunk c).title = "Market Source") ∧
    (∀ c : Chunk, c.uri = none → (convChunk c).uri = "#") := by
  refine ⟨?_, fun c hc => by simp [convChunk, hc, orDefault],
    fun c hc => by simp [convChunk, hc, orDefault]⟩
  intro chunks stocks s hs
  obtain ⟨s₀, _, rfl⟩ := List.mem_map.mp hs
  refine ⟨rfl, ?_, ?_, ?_⟩
  · exact List.length_take_le 5 (extractChunks chunks)
  · show ((extractChunks chunks).take 5).Sublist ((chunks.getD []).map convChunk)
    rcases chunks with _ | cs
    · simp [extractChunks]
    · exact ((extractChunks (some cs)).take_sublist 5).trans
        (List.filter_sublist (cs.map convChunk))
  · intro src hsrc
    show src.uri ≠ "#"
    have hmem : src ∈ extractChunks chunks :=
      ((extractChunks chunks).take_sublist 5).subset hsrc
    rcases chunks with _ | cs
    · simp [extractChunks] at hmem
    · have := (List.mem_filter.mp hmem).2
      simpa using this

/-- Witness for the C7 theorem: ten synthetic chunks, all with a usable
link, give every result the identical five-entry citation list. -/
theorem citations_capped_ordered_shared_witness :
    attachedSample.sources = (extractChunks (some tenChunks)).take 5 ∧
    attachedSample.sources.length ≤ 5 ∧
    attachedSample.sources.Sublist
      (((some tenChunks : Option (List Chunk)).getD []).map convChunk) ∧
    (∀ src ∈ attachedSample.sources, src.uri ≠ "#") :=
  citations_capped_ordered_shared.1 (some tenChunks) [sampleStock]
    attachedSample (List.mem_singleton.mpr rfl)

/-- C8. A result whose `dcfIntrinsicValue` is the 0 sentinel is rendered
as N/A by both DCF displays of the dashboard, and a dollar value with a
margin percentage is shown exactly when the intrinsic value is strictly
positive. -/
theorem dcf_sentinel_rendering (q : QualityBlock) :
    (q.dcfIntrinsicValue = 0 →
      renderDCFInfo q = DCFDisplay.na ∧ dcfCardValue q = none) ∧
    (renderDCFInfo q =
        DCFDisplay.shown q.dcfIntrinsicValue (q.dcfMarginOfSafety * 100) ↔
      0 < q.dcfIntrinsicValue) ∧
    (dcfCardValue q = some q.dcfIntrinsicValue ↔ 0 < q.dcfIntrinsicValue) := by
  refine ⟨?_, ?_, ?_⟩
  · intro h0
    unfold renderDCFInfo dcfCardValue
    rw [if_neg (by simp [h0]), if_neg (by simp [h0])]
    exact ⟨rfl, rfl⟩
  · unfold renderDCFInfo
    by_cases h : 0 < q.dcfIntrinsicValue
    · rw [if_pos ⟨ne_of_gt h, h⟩]
      simpa using h
    · rw [if_neg (fun hc => h hc.2)]
      exact ⟨fun hna => DCFDisplay.noConfusion hna, fun hlt => absurd hlt h⟩
  · unfold dcfCardValue
    by_cases h : 0 < q.dcfIntrinsicValue
    · rw [if_pos ⟨ne_of_gt h, h⟩]
      simpa using h
    · rw [if_neg (fun hc => h hc.2)]
      exact ⟨fun hna => Option.noConfusion hna, fun hlt => absurd hlt h⟩

/-- Witness for the C8 theorem: the sentinel block renders as N/A. -/
theorem dcf_sentinel_rendering_witness :
    renderDCFInfo sampleQuality = DCFDisplay.na ∧
    dcfCardValue sampleQuality = none :=
  (dcf_sentinel_rendering sampleQuality).1 rfl

/-- C9. Submitting while the input is blank or whitespace-only leaves
the application state unchanged and issues no request. -/
theorem whitespace_input_noop (input : List Char) (s : AnalysisState)
    (h : input.all isSpaceChar = true) :
    handleSearchSubmit input s = (s, none) := by
  have htrim : trimChars input = [] := by
    have hdrop : input.dropWhile isSpaceChar = [] :=
      List.dropWhile_eq_nil_iff.mpr (fun x hx => List.all_eq_true.mp h x hx)
    unfold trimChars
    rw [hdrop]
    rfl
  have hguard : handleSearchGuard input = none := by
    unfold handleSearchGuard
    rw [if_pos htrim]
  unfold handleSearchSubmit
  rw [hguard]

/-- Witness for the C9 theorem at a concrete whitespace-only input. -/
theorem whitespace_input_noop_witness :
    ([' ', '\t'].all isSpaceChar = true) ∧
    handleSearchSubmit [' ', '\t'] initialState = (initialState, none) :=
  ⟨by decide, whitespace_input_noop [' ', '\t'] initialState (by decide)⟩

/-- C10. In every reachable application state `loading` is true exactly
when `step` is processing, and the terminal success state carries the
idle step. -/
theorem loading_iff_processing :
    (∀ s : AnalysisState, Reachable s →
      (s.loading = true ↔ s.step = AppStep.processing)) ∧
    (∀ results : List StockAnalysisData,
      (successState results).step = AppStep.idle) := by
  refine ⟨?_, fun _ => rfl⟩
  intro s hs
  induction hs with
  | init => simp [initialState]
  | submit _ _ => simp [requestStartState]
  | startProg _ ih => exact ih
  | tick e _ ih =>
    unfold tickState
    split
    · exact ih
    · exact ih
  | finish _ ih => exact ih
  | resolve parse umsg r _ _ =>
    rcases hA : analyzeStocks parse umsg r with e | results
    · have hrun : runRequest parse umsg r = failureState e := by
        unfold runRequest
        rw [hA]
      rw [hrun]
      simp [failureState]
    · by_cases h0 : results.length = 0
      · have hrun : runRequest parse umsg r = failureState JsError.noResults := by
          unfold runRequest
          rw [hA]
          exact if_pos h0
        rw [hrun]
        simp [failureState]
      · have hrun : runRequest parse umsg r = successState results := by
          unfold runRequest
          rw [hA]
          exact if_neg h0
        rw [hrun]
        simp [successState]
  | dismiss _ ih => exact ih

/-- Witness for the C10 theorem at the initial state. -/
theorem loading_iff_processing_witness :
    (initialState.loading = true ↔ initialState.step = AppStep.processing) ∧
    (successState []).step = AppStep.idle :=
  ⟨loading_iff_processing.1 initialState Reachable.init,
   loading_iff_processing.2 []⟩

end QuantEdge
